import Mathlib

/-!
# Verification of the docai in-browser code-exploration widget

Shallow embedding of the core logic of the `IDE` / `FileTree` component
(tree model and path resolution, open-tab manager, selection handling,
expanded-path toggling) and of the `CodeBlock` search engine, together
with proofs and refutations of the specified properties.

Conventions:
* JavaScript strings are Lean `String`s; `String.prototype.replace`
  with a string pattern (first occurrence only) is modelled by `jsReplace`.
* The zustand store is modelled by the record `StoreState`; a handler
  that issues several `set` calls is modelled by sequential record
  updates, with the identifiers it captured at entry bound once with
  `let` (JavaScript closure-snapshot semantics: later `set` calls do not
  refresh the captured values).
* JavaScript array indexing with a possibly negative index
  (`xs[xs.length - 2]`, which yields `undefined` out of range) is
  modelled by `jsIndex` over `Int`.
-/

/-! ## Tree model -/

/-- The `type` field of a `FileExplorer` node: `"file" | "directory"`. -/
inductive FType where
  | file
  | directory
deriving DecidableEq, Repr

/-- The `FileExplorer` interface:
`{ name: string; type: "file" | "directory"; children?: FileExplorer[];
content?: string; language?: string }`.  Optional fields are `Option`s. -/
inductive FileExplorer where
  | node (name : String) (ftype : FType) (children : Option (List FileExplorer))
      (content : Option String) (language : Option String)

/-- Field accessor for `name`. -/
def FileExplorer.name : FileExplorer → String
  | .node n _ _ _ _ => n

/-- Field accessor for `type`. -/
def FileExplorer.ftype : FileExplorer → FType
  | .node _ t _ _ _ => t

/-- Field accessor for `children`. -/
def FileExplorer.children : FileExplorer → Option (List FileExplorer)
  | .node _ _ c _ _ => c

/-- Field accessor for `content`. -/
def FileExplorer.content : FileExplorer → Option String
  | .node _ _ _ c _ => c

/-- Field accessor for `language`. -/
def FileExplorer.language : FileExplorer → Option String
  | .node _ _ _ _ l => l

/-- Result record of `findFileContent`: `{ content?: string; language?: string }`. -/
structure FileResult where
  content : Option String
  language : Option String
deriving DecidableEq, Repr

/-- Helper for `jsReplace`: replace the first occurrence of `pat` in `s`
by `repl`, on character lists. -/
def jsReplaceList (pat repl : List Char) : List Char → List Char
  | [] => if pat.isPrefixOf ([] : List Char) then repl else []
  | c :: rest =>
    if pat.isPrefixOf (c :: rest) then repl ++ (c :: rest).drop pat.length
    else c :: jsReplaceList pat repl rest

/-- JavaScript `s.replace(pat, repl)` with a string pattern: replaces only
the FIRST occurrence of `pat` in `s` (the whole string is returned
unchanged when `pat` does not occur). -/
def jsReplace (s pat repl : String) : String :=
  ⟨jsReplaceList pat.toList repl.toList s.toList⟩

mutual
/-- Function `findFileContent(node, targetPath)` from the `IDE` component: compares
`"/" + node.name` against the whole remaining path text; on a match it
returns the node's `{content, language}`, otherwise it recurses into each
child after stripping the first occurrence of `"/" + node.name` out of the
remaining path string (`targetPath.replace(nodePath, "")`). -/
def findFileContent (node : FileExplorer) (targetPath : String) : Option FileResult :=
  match node with
  | .node name _ children content language =>
    let nodePath := "/" ++ name
    if nodePath = targetPath then some ⟨content, language⟩
    else
      match children with
      | some cs => findFileContentList cs (jsReplace targetPath nodePath "")
      | none => none

/-- The `for (const child of node.children) { ... if (result) return result }`
loop of `findFileContent`: first non-null result wins. -/
def findFileContentList (cs : List FileExplorer) (targetPath : String) : Option FileResult :=
  match cs with
  | [] => none
  | c :: rest =>
    match findFileContent c targetPath with
    | some r => some r
    | none => findFileContentList rest targetPath
end

mutual
/-- All valid `Path`s of a tree: the `/`-joined sequences of node names
from the root down to each node, root-inclusive (spec §3 `Path`). -/
def nodePaths (node : FileExplorer) : List String :=
  match node with
  | .node name _ children _ _ =>
    ("/" ++ name) ::
      (match children with
       | some cs => (nodePathsList cs).map (fun q => "/" ++ name ++ q)
       | none => [])

/-- Valid paths of a forest, relative to the common parent. -/
def nodePathsList (cs : List FileExplorer) : List String :=
  match cs with
  | [] => []
  | c :: rest => nodePaths c ++ nodePathsList rest
end

mutual
/-- Spec-side association of every valid `Path` of a tree with the
`{content, language}` stored at the node the path leads to. -/
def nodeEntries (node : FileExplorer) : List (String × FileResult) :=
  match node with
  | .node name _ children content language =>
    ("/" ++ name, ⟨content, language⟩) ::
      (match children with
       | some cs => (nodeEntriesList cs).map (fun e => ("/" ++ name ++ e.1, e.2))
       | none => [])

/-- Entries of a forest, relative to the common parent. -/
def nodeEntriesList (cs : List FileExplorer) : List (String × FileResult) :=
  match cs with
  | [] => []
  | c :: rest => nodeEntries c ++ nodeEntriesList rest
end

/-- Example tree for path resolution: `root` with sibling directories
`b` (containing `a/x/y` with content `"WRONG"`) and `a` (containing
`x/y` with content `"RIGHT"`); the name `a` repeats at two depths. -/
def exResolveTree : FileExplorer :=
  .node "root" .directory
    (some
      [ .node "b" .directory
          (some [ .node "a" .directory
              (some [ .node "x" .directory
                  (some [ .node "y" .file none (some "WRONG") (some "ts") ])
                  none none ])
              none none ])
          none none
      , .node "a" .directory
          (some [ .node "x" .directory
              (some [ .node "y" .file none (some "RIGHT") (some "ts") ])
              none none ])
          none none ])
    none none

/-- Example tree: `r` containing directory `d` containing file `f`. -/
def exSkipTree : FileExplorer :=
  .node "r" .directory
    (some [ .node "d" .directory
        (some [ .node "f" .file none (some "C") (some "ts") ]) none none ])
    none none

example : findFileContent exResolveTree "/root/a/x/y" = some ⟨some "WRONG", some "ts"⟩ := by
  decide

example : "/root/a/x/y" ∈ nodePaths exResolveTree := by decide

example : findFileContent exSkipTree "/r/f" = some ⟨some "C", some "ts"⟩ := by decide

example : "/r/f" ∉ nodePaths exSkipTree := by decide

/-! ## Zustand store and the tab / selection handlers -/

/-- The zustand `FileStoreState` data:
`expandedPaths : Set<string>`, `selectedPath : string | null`,
`openedFiles : string[]`.  A `string | null | undefined` selection is
an `Option String`. -/
structure StoreState where
  expandedPaths : Finset String
  selectedPath : Option String
  openedFiles : List String
deriving DecidableEq

/-- The store's initial state: empty set, `null` selection, `[]` files. -/
def initialStore : StoreState :=
  { expandedPaths := ∅, selectedPath := none, openedFiles := [] }

/-- Handler `toggleExpanded(path)` from `useFileStore`: copies the expanded set,
deletes `path` when present, adds it when absent. -/
def toggleExpanded (st : StoreState) (path : String) : StoreState :=
  { st with
    expandedPaths :=
      if path ∈ st.expandedPaths then st.expandedPaths.erase path
      else insert path st.expandedPaths }

/-- Setter `setSelectedPath(path)` from `useFileStore` (unguarded store setter). -/
def setSelectedPath (st : StoreState) (path : Option String) : StoreState :=
  { st with selectedPath := path }

/-- Setter `setOpenedFiles(files)` from `useFileStore`. -/
def setOpenedFiles (st : StoreState) (files : List String) : StoreState :=
  { st with openedFiles := files }

/-- JavaScript `maxFilesOpen || 5`: `0` is falsy and falls back to `5`. -/
def maxOr5 (m : Nat) : Nat := if m = 0 then 5 else m

/-- Handler `handleFileOpen(filePath)` from `FileTree`.  The component reads
`openedFiles` once from the store snapshot; both `setOpenedFiles` calls
compute their argument from that snapshot, so the append
`[...openedFiles, filePath]` overwrites whatever the eviction branch
stored (the captured `openedFiles` is not refreshed between `set`s). -/
def handleFileOpen (maxFilesOpen : Nat) (st : StoreState) (filePath : String) : StoreState :=
  let openedFiles := st.openedFiles
  let st1 :=
    if filePath ∈ openedFiles then st
    else
      let st2 :=
        if openedFiles.length ≥ maxOr5 maxFilesOpen then
          let fileToClose := openedFiles.headD ""
          setOpenedFiles st (openedFiles.filter (fun file => file ≠ fileToClose))
        else st
      setOpenedFiles st2 (openedFiles ++ [filePath])
  setSelectedPath st1 (some filePath)

/-- JavaScript array read `xs[i]` where `i` may be negative or out of
range: `undefined` (here `none`) outside `[0, xs.length)`. -/
def jsIndex (xs : List String) (i : Int) : Option String :=
  if i < 0 then none else xs.get? i.toNat

/-- Handler `handleCloseFile(path)` from `IDE`: filters `path` out of the opened
list, and when `path` was the selection, selects
`openedFiles[openedFiles.length - 2]` of the PRE-removal snapshot
(`undefined`, i.e. `none`, when the snapshot has fewer than two entries). -/
def handleCloseFile (st : StoreState) (path : String) : StoreState :=
  let openedFiles := st.openedFiles
  let st1 := setOpenedFiles st (openedFiles.filter (fun f => f ≠ path))
  if st.selectedPath = some path then
    setSelectedPath st1 (jsIndex openedFiles ((openedFiles.length : Int) - 2))
  else st1

/-- Modelled from the spec: the tab strip lives in `FileViewer`, whose
source is not among the files under study; per §4.2, `selectFile(path)`
"sets Selection to `path` only if `path ∈ OpenTabSet`; otherwise no-op". -/
def selectFile (st : StoreState) (path : String) : StoreState :=
  if path ∈ st.openedFiles then { st with selectedPath := some path } else st

/-- A user intent against the tab manager. -/
inductive TabOp where
  | openF (p : String)
  | closeF (p : String)
  | selectF (p : String)
deriving DecidableEq, Repr

/-- One intent handled by the corresponding handler. -/
def stepOp (maxFilesOpen : Nat) (st : StoreState) : TabOp → StoreState
  | .openF p => handleFileOpen maxFilesOpen st p
  | .closeF p => handleCloseFile st p
  | .selectF p => selectFile st p

/-- A sequence of intents starting from a given state. -/
def runOps (maxFilesOpen : Nat) (st : StoreState) (ops : List TabOp) : StoreState :=
  ops.foldl (stepOp maxFilesOpen) st

/-- The Selection invariant of spec §3: the selection, when present, is
an element of the open-tab list; the open-tab list holds no duplicates. -/
def selInv (st : StoreState) : Prop :=
  st.openedFiles.Nodup ∧ ∀ p, st.selectedPath = some p → p ∈ st.openedFiles

/-- An intent is "safe" in a state when it is not a close of the
currently selected path while that path sits at index `length − 2` of
the open-tab list — the slot the close-fallback re-selects.  Every other
close (of a non-selected tab, of the selected tab in any other position,
or of the only open tab) is safe. -/
def safeOp (st : StoreState) : TabOp → Bool
  | .closeF p =>
    st.selectedPath ≠ some p
      || jsIndex st.openedFiles ((st.openedFiles.length : Int) - 2) ≠ some p
  | _ => true

/-- Every intent of the sequence is safe in the state it is applied to. -/
def safeOps (m : Nat) : StoreState → List TabOp → Bool
  | _, [] => true
  | st, op :: rest => safeOp st op && safeOps m (stepOp m st op) rest

example :
    (runOps 1 initialStore [.openF "a", .openF "b"]).openedFiles = ["a", "b"] := by
  decide

example :
    (runOps 5 initialStore
      [.openF "a", .openF "b", .openF "c", .selectF "b", .closeF "b"]).selectedPath
      = some "b" := by decide

/-! ## Child ordering for display (`FileTree`) -/

/-- The comparator passed to `item.children?.sort(...)`: directories
first, then files; within a group, `a.name.localeCompare(b.name)`.
`localeCompare` is host- and locale-dependent, so it is a parameter
`lc : String → String → Ordering` of the embedding. -/
def childCompare (lc : String → String → Ordering) (a b : FileExplorer) : Ordering :=
  match a.ftype, b.ftype with
  | .directory, .file => .lt
  | .file, .directory => .gt
  | _, _ => lc a.name b.name

/-- The boolean "`a` may precede `b`" relation induced by `childCompare`
(this is what a comparison sort guarantees about consecutive elements). -/
def childLe (lc : String → String → Ordering) (a b : FileExplorer) : Bool :=
  childCompare lc a b ≠ .gt

/-- The sorted child sequence produced for display by `FileTree`:
`item.children?.sort(comparator)`, modelled as a stable comparison sort
under `childLe` (insertion sort; `Array.prototype.sort` is likewise a
stable comparison sort).  The sort itself is in place; `renderChildren`
below accounts for the mutation. -/
def sortChildren (lc : String → String → Ordering) (cs : List FileExplorer) :
    List FileExplorer :=
  List.insertionSort (fun a b => childLe lc a b = true) cs

/-- Rendering a directory node's children in `FileTree`:
`item.children?.sort(...)` sorts the `children` array IN PLACE and the
sorted array is then mapped over for display.  The state-passing model
returns both the displayed sequence and the node as it is left after the
call (its `children` array now holds the sorted order). -/
def renderChildren (lc : String → String → Ordering) (node : FileExplorer) :
    List FileExplorer × FileExplorer :=
  match node.children with
  | none => ([], node)
  | some cs =>
    let sorted := sortChildren lc cs
    (sorted,
     .node node.name node.ftype (some sorted) node.content node.language)

/-- Names of a node's children, in the order the `children` array holds
them (`[]` when the field is absent). -/
def childNames (node : FileExplorer) : List String :=
  ((node.children).getD []).map FileExplorer.name

/-- A concrete `localeCompare` instance for witnesses: Lean's `String`
ordering. -/
def lcStd (a b : String) : Ordering := compare a b

/-- Example directory whose `children` array holds a file before a
directory, so that the display sort reorders it. -/
def exSortDir : FileExplorer :=
  .node "p" .directory
    (some [ .node "b" .file none (some "t") none
          , .node "a" .directory (some []) none none ])
    none none

example : childNames exSortDir = ["b", "a"] := by decide
example : childNames (renderChildren lcStd exSortDir).2 = ["a", "b"] := by decide

/-! ## Search engine (`CodeBlock`) -/

/-- Test that `p` occurs as a contiguous sublist of `s`. -/
def containsSub (p : List Char) : List Char → Bool
  | [] => p.isEmpty
  | c :: t => p.isPrefixOf (c :: t) || containsSub p t

/-- ASCII lowering of a character list (the model of `toLowerCase`). -/
def lowerChars (l : List Char) : List Char := l.map Char.toLower

/-- Split a character list at every `'\n'` (the model of `split("\n")`):
always at least one (possibly empty) line, and a trailing newline yields
a trailing empty line. -/
def splitLines : List Char → List (List Char)
  | [] => [[]]
  | c :: t =>
    if c = '\n' then [] :: splitLines t
    else
      match splitLines t with
      | h :: r => (c :: h) :: r
      | [] => [[c]]

/-- The lines of a buffer, as strings. -/
def bufferLines (buffer : String) : List String :=
  (splitLines buffer.toList).map fun l => ⟨l⟩

/-- A line contains a case-insensitive occurrence of the query as a
substring. -/
def lineHasMatch (line query : String) : Bool :=
  containsSub (lowerChars query.toList) (lowerChars line.toList)

/-- The 1-based numbers (counting from `i`) of the lines containing a
case-insensitive occurrence of `query`. -/
def matchLinesFrom (query : String) (i : Nat) : List String → List Nat
  | [] => []
  | l :: ls =>
    if lineHasMatch l query then i :: matchLinesFrom query (i + 1) ls
    else matchLinesFrom query (i + 1) ls

/-- The `SearchState` of the `CodeBlock` component:
`searchQuery`, `searchResults` (line numbers), `currentResultIndex`
(`-1` when there is no active match). -/
structure SearchState where
  searchQuery : String
  searchResults : List Nat
  currentResultIndex : Int
deriving DecidableEq, Repr

/-- Modelled from the spec: the `CodeBlock` search handler that recomputes
`searchResults` is not among the files under study (the source is cut off
right after the state declarations); per §4.3, `setQuery(buffer, query)`
recomputes `matches` as the ascending sequence of 1-based line numbers
containing at least one case-insensitive occurrence of `query` as a
substring, sets `cursor = 0` for a non-empty query with matches, and
yields `matches = []`, `cursor = -1` for an empty query or zero matches. -/
def setQuery (buffer query : String) : SearchState :=
  if query = "" then
    { searchQuery := query, searchResults := [], currentResultIndex := -1 }
  else
    let ms := matchLinesFrom query 1 (bufferLines buffer)
    { searchQuery := query, searchResults := ms,
      currentResultIndex := if ms.isEmpty then -1 else 0 }

example : (setQuery "x\nFoo\nfoo" "foo").searchResults = [2, 3] := by decide
example : (setQuery "x\nFoo\nfoo" "foo").currentResultIndex = 0 := by decide
example : (setQuery "x" "").currentResultIndex = -1 := by decide

/-! ## Theorems -/

/-- Closed form of `handleFileOpen`: because the second `setOpenedFiles`
recomputes its argument from the snapshot captured at entry, the
eviction branch has no effect on the final state — a new path is always
appended to the FULL previous list.  (This is the stale-closure defect
behind the capacity violations below.) -/
theorem handleFileOpen_eq (m : Nat) (st : StoreState) (p : String) :
    handleFileOpen m st p =
      { st with
        openedFiles :=
          if p ∈ st.openedFiles then st.openedFiles else st.openedFiles ++ [p],
        selectedPath := some p } := by
  unfold handleFileOpen
  by_cases h : p ∈ st.openedFiles
  · simp [h, setSelectedPath]
  · simp only [h, if_neg, ite_false, setSelectedPath, setOpenedFiles]
    split <;> rfl

/-- Reading `xs[xs.length - 2]` in JavaScript yields the entry at index
`length − 2` when the list has at least two entries, `undefined`
otherwise. -/
theorem jsIndex_len_sub_two (xs : List String) :
    jsIndex xs ((xs.length : Int) - 2) =
      if h2 : 2 ≤ xs.length then some (xs.get ⟨xs.length - 2, by omega⟩)
      else none := by
  unfold jsIndex
  by_cases h2 : 2 ≤ xs.length
  · rw [dif_pos h2, if_neg (by omega : ¬((xs.length : Int) - 2 < 0))]
    have ht : ((xs.length : Int) - 2).toNat = xs.length - 2 := by omega
    rw [ht, List.get?_eq_get (by omega)]
  · rw [dif_neg h2, if_pos (by omega)]

/-- C1: the claim "`resolve(T, P)` returns exactly the content/language
stored at the node a valid path `P` leads to, and not-found for any
other `P`" fails on `findFileContent`, which strips a matched substring
out of the remaining path text instead of matching segment-by-segment.
In `exResolveTree` (name `a` occurring at two depths) the valid path
`/root/a/x/y` resolves to the content stored at `/root/b/a/x/y`; in
`exSkipTree` the non-constructable path `/r/f` (skipping directory `d`)
resolves instead of returning not-found. -/
theorem findFileContent_prefix_strip_bug :
    ("/root/a/x/y" ∈ nodePaths exResolveTree
      ∧ (nodeEntries exResolveTree).lookup "/root/a/x/y"
          = some ⟨some "RIGHT", some "ts"⟩
      ∧ findFileContent exResolveTree "/root/a/x/y"
          = some ⟨some "WRONG", some "ts"⟩)
    ∧ ("/r/f" ∉ nodePaths exSkipTree
      ∧ findFileContent exSkipTree "/r/f" = some ⟨some "C", some "ts"⟩) := by
  decide

/-- C2: the capacity invariant `|OpenTabSet| ≤ maxOpen` fails on the
code.  With `maxFilesOpen = 2`, opening the three distinct files
`a`, `b`, `c` leaves all three open: the eviction's `setOpenedFiles` is
overwritten by the append, which uses the pre-eviction snapshot. -/
theorem capacity_invariant_violated :
    (runOps 2 initialStore [.openF "a", .openF "b", .openF "c"]).openedFiles
      = ["a", "b", "c"]
    ∧ ¬((runOps 2 initialStore [.openF "a", .openF "b", .openF "c"]).openedFiles.length
        ≤ 2) := by
  decide

/-- C3: FIFO eviction fails on the code.  With `maxFilesOpen = 1`,
opening `a` then `b` should leave `[b]` (`a` evicted); the code leaves
`["a", "b"]` because the eviction's state update is overwritten by the
append computed from the stale snapshot. -/
theorem fifo_eviction_violated :
    (runOps 1 initialStore [.openF "a", .openF "b"]).openedFiles = ["a", "b"]
    ∧ (runOps 1 initialStore [.openF "a", .openF "b"]).openedFiles ≠ ["b"] := by
  decide

/-- C5 counterexample: after `open a; open b; open c; select b; close b`
(capacity 5), the Selection is the just-closed `b`, which is no longer
an element of the open-tab set — `handleCloseFile` falls back to the
entry at index `length − 2` of the pre-removal list, which is the closed
tab itself whenever the closed tab was not in last position. -/
theorem selection_invariant_counterexample :
    (runOps 5 initialStore
        [.openF "a", .openF "b", .openF "c", .selectF "b", .closeF "b"]).selectedPath
      = some "b"
    ∧ "b" ∉ (runOps 5 initialStore
        [.openF "a", .openF "b", .openF "c", .selectF "b", .closeF "b"]).openedFiles := by
  decide

/-- C9: rendering a directory's children mutates the supplied tree:
`item.children?.sort(...)` sorts the `children` array in place, so the
node left behind holds the sorted order `["a", "b"]`, not the supplied
order `["b", "a"]`. -/
theorem renderChildren_mutates_tree :
    childNames exSortDir = ["b", "a"]
    ∧ childNames (renderChildren lcStd exSortDir).2 = ["a", "b"]
    ∧ (renderChildren lcStd exSortDir).2 ≠ exSortDir := by
  refine ⟨by decide, by decide, fun h => absurd (congrArg childNames h) (by decide)⟩

/-- C4: when the closed path is the active Selection, the new Selection
is the entry at index `length − 2` of the pre-removal open-tab list,
and null when no such entry exists. -/
theorem handleCloseFile_selected_fallback (st : StoreState) (p : String)
    (h : st.selectedPath = some p) :
    (handleCloseFile st p).selectedPath =
      if h2 : 2 ≤ st.openedFiles.length then
        some (st.openedFiles.get ⟨st.openedFiles.length - 2, by omega⟩)
      else none := by
  rw [← jsIndex_len_sub_two]
  unfold handleCloseFile setOpenedFiles setSelectedPath
  simp [h]

/-- Witness for C4, covering both concrete scenarios of the claim: with
open tabs `[a, b, c]` and Selection `c`, closing `c` selects `b`;
closing the only open file yields a null Selection. -/
theorem handleCloseFile_selected_fallback_witness :
    (handleCloseFile
        { initialStore with openedFiles := ["a", "b", "c"], selectedPath := some "c" }
        "c").selectedPath = some "b"
    ∧ (handleCloseFile
        { initialStore with openedFiles := ["a"], selectedPath := some "a" }
        "a").selectedPath = none :=
  ⟨(handleCloseFile_selected_fallback _ "c" rfl).trans (by decide),
   (handleCloseFile_selected_fallback _ "a" rfl).trans (by decide)⟩

/-- C6: `selectFile(path)` (modelled from the spec, the tab strip's
`FileViewer` source being absent) sets the Selection to `path` exactly
when `path` is an open tab, and is a complete no-op otherwise. -/
theorem selectFile_guarded (st : StoreState) (p : String) :
    (p ∈ st.openedFiles →
      (selectFile st p).selectedPath = some p
      ∧ (selectFile st p).openedFiles = st.openedFiles)
    ∧ (p ∉ st.openedFiles → selectFile st p = st) := by
  constructor <;> intro h <;> simp [selectFile, h]

/-- Witness for C6: selecting the open tab `a` activates it; selecting
the unopened `b` changes nothing. -/
theorem selectFile_guarded_witness :
    (selectFile { initialStore with openedFiles := ["a"] } "a").selectedPath = some "a"
    ∧ selectFile { initialStore with openedFiles := ["a"] } "b"
        = { initialStore with openedFiles := ["a"] } :=
  ⟨((selectFile_guarded { initialStore with openedFiles := ["a"] } "a").1 (by decide)).1,
   (selectFile_guarded { initialStore with openedFiles := ["a"] } "b").2 (by decide)⟩

/-- C10: `toggleExpanded(p)` flips exactly `p`'s membership in the
expanded-paths set, leaves every other path's membership unchanged, and
applied twice restores the set. -/
theorem toggleExpanded_involutive (st : StoreState) (p : String) :
    ((p ∈ (toggleExpanded st p).expandedPaths ↔ p ∉ st.expandedPaths)
      ∧ ∀ q, q ≠ p →
          (q ∈ (toggleExpanded st p).expandedPaths ↔ q ∈ st.expandedPaths))
    ∧ (toggleExpanded (toggleExpanded st p) p).expandedPaths = st.expandedPaths := by
  unfold toggleExpanded
  by_cases h : p ∈ st.expandedPaths
  · simp only [h, if_pos]
    refine ⟨⟨by simp [h], fun q hq => by simp [Finset.mem_erase, hq]⟩, ?_⟩
    simp [Finset.not_mem_erase, Finset.insert_erase h]
  · simp only [h, if_neg, ite_false]
    refine ⟨⟨by simp [h], fun q hq => by simp [Finset.mem_insert, hq]⟩, ?_⟩
    simp [Finset.mem_insert, h, Finset.erase_insert h]

/-- Witness for C10: toggling `y` does not change `x`'s membership. -/
theorem toggleExpanded_involutive_witness :
    "x" ∈ (toggleExpanded { initialStore with expandedPaths := {"x"} } "y").expandedPaths
      ↔ "x" ∈ ({"x"} : Finset String) :=
  (toggleExpanded_involutive { initialStore with expandedPaths := {"x"} } "y").1.2
    "x" (by decide)

/-- One safe intent preserves the Selection invariant: opening always
selects the (now open) path, guarded selection only selects open paths,
and closing preserves it as long as the selected path is not closed
while sitting at index `length − 2` — in every other case the
close-fallback entry differs from the closed path and survives the
removal (or no fallback entry exists and the Selection becomes null). -/
theorem selInv_stepOp (m : Nat) (st : StoreState) (op : TabOp)
    (hinv : selInv st) (hsafe : safeOp st op = true) : selInv (stepOp m st op) := by
  obtain ⟨hnd, hsel⟩ := hinv
  cases op with
  | openF p =>
    rw [stepOp, handleFileOpen_eq]
    constructor
    · by_cases h : p ∈ st.openedFiles <;>
        simp [h, hnd, List.nodup_append, List.disjoint_singleton]
    · intro q hq
      cases hq
      by_cases h : p ∈ st.openedFiles <;> simp [h]
  | closeF p =>
    rw [stepOp]
    unfold handleCloseFile setOpenedFiles setSelectedPath
    by_cases hs : st.selectedPath = some p
    · rw [if_pos hs]
      refine ⟨hnd.filter _, ?_⟩
      intro q hq
      simp only at hq
      have hne : jsIndex st.openedFiles ((st.openedFiles.length : Int) - 2) ≠ some p := by
        simp only [safeOp, hs] at hsafe
        simpa using hsafe
      rw [jsIndex_len_sub_two] at hq hne
      by_cases h2 : 2 ≤ st.openedFiles.length
      · rw [dif_pos h2] at hq hne
        injection hq with hq
        have hqp : q ≠ p := fun hqp => hne (by rw [hq, hqp])
        rw [List.mem_filter]
        exact ⟨hq ▸ List.get_mem _ _ _, by simpa using hqp⟩
      · rw [dif_neg h2] at hq
        exact absurd hq (by simp)
    · rw [if_neg hs]
      refine ⟨hnd.filter _, ?_⟩
      intro q hq
      simp only at hq
      have hqmem := hsel q hq
      have hqp : q ≠ p := fun hqp => hs (by rw [← hqp]; exact hq)
      rw [List.mem_filter]
      exact ⟨hqmem, by simpa using hqp⟩
  | selectF p =>
    rw [stepOp]
    unfold selectFile
    by_cases h : p ∈ st.openedFiles
    · rw [if_pos h]
      exact ⟨hnd, fun q hq => by cases hq; exact h⟩
    · rw [if_neg h]
      exact ⟨hnd, hsel⟩

/-- The Selection invariant holds after any safe sequence of intents
from any state satisfying it. -/
theorem selInv_runOps (m : Nat) (ops : List TabOp) :
    ∀ st, selInv st → safeOps m st ops = true → selInv (runOps m st ops) := by
  induction ops with
  | nil => exact fun st h _ => h
  | cons op rest ih =>
    intro st h hsafe
    rw [safeOps, Bool.and_eq_true] at hsafe
    rw [runOps, List.foldl_cons]
    exact ih _ (selInv_stepOp m st op h hsafe.1) hsafe.2

/-- C5 (amended): after every sequence of `openFile`, `closeFile` and
`selectFile` intents from the empty state in which the currently
selected path is never closed while sitting at index `length − 2` of
the open-tab list (the slot the close-fallback re-selects), the
Selection is null or an element of the open-tab set.  (Unrestricted,
the claim is refuted by the counterexample above, which closes the
selected second-to-last tab.) -/
theorem selection_invariant_amended (m : Nat) (ops : List TabOp)
    (hsafe : safeOps m initialStore ops = true) :
    ∀ p, (runOps m initialStore ops).selectedPath = some p →
      p ∈ (runOps m initialStore ops).openedFiles :=
  (selInv_runOps m ops initialStore ⟨List.nodup_nil, by simp [initialStore]⟩ hsafe).2

/-- Witness for C5 (amended): `open a; open b; open c; select a;
close a` is a safe sequence (the selected `a` is closed from the FIRST
position, not from index `length − 2`); it ends selecting `b`, which is
open. -/
theorem selection_invariant_amended_witness :
    "b" ∈ (runOps 5 initialStore
      [.openF "a", .openF "b", .openF "c", .selectF "a", .closeF "a"]).openedFiles :=
  selection_invariant_amended 5
    [.openF "a", .openF "b", .openF "c", .selectF "a", .closeF "a"]
    (by decide) "b" (by decide)

/-- Relation `childLe` as a proposition about `childCompare`. -/
theorem childLe_iff (lc : String → String → Ordering) (a b : FileExplorer) :
    childLe lc a b = true ↔ childCompare lc a b ≠ .gt := by
  simp [childLe]

/-- The comparator relation is total whenever the name comparison is. -/
theorem childLe_total (lc : String → String → Ordering)
    (hTot : ∀ x y, lc x y = .gt → lc y x ≠ .gt) (a b : FileExplorer) :
    childLe lc a b = true ∨ childLe lc b a = true := by
  rw [childLe_iff, childLe_iff]
  unfold childCompare
  cases ha : a.ftype <;> cases hb : b.ftype <;> simp_all
  · by_cases h : lc a.name b.name = Ordering.gt
    · exact Or.inr (hTot _ _ h)
    · exact Or.inl h
  · by_cases h : lc a.name b.name = Ordering.gt
    · exact Or.inr (hTot _ _ h)
    · exact Or.inl h

/-- The comparator relation is transitive whenever the name comparison is. -/
theorem childLe_trans (lc : String → String → Ordering)
    (hTrans : ∀ x y z, lc x y ≠ .gt → lc y z ≠ .gt → lc x z ≠ .gt)
    (a b c : FileExplorer) (hab : childLe lc a b = true)
    (hbc : childLe lc b c = true) : childLe lc a c = true := by
  rw [childLe_iff] at hab hbc ⊢
  unfold childCompare at hab hbc ⊢
  cases ha : a.ftype <;> cases hb : b.ftype <;> cases hc : c.ftype <;>
    simp_all <;> exact hTrans _ _ _ hab hbc

/-- A sorted adjacent pair satisfies the display-ordering contract:
never a file before a directory, and names ascend within a kind. -/
theorem childLe_imp_ordered (lc : String → String → Ordering) (a b : FileExplorer)
    (h : childLe lc a b = true) :
    ¬(a.ftype = .file ∧ b.ftype = .directory)
    ∧ (a.ftype = b.ftype → lc a.name b.name ≠ .gt) := by
  rw [childLe_iff] at h
  unfold childCompare at h
  cases ha : a.ftype <;> cases hb : b.ftype <;> simp_all

/-- C7: for any total and transitive name comparison `lc` (the
locale-aware `localeCompare`), the child sequence produced for display
is a permutation of the directory's children in which every directory
entry precedes every file entry and, within each kind, names ascend
under `lc`; it is computed by the pure function `sortChildren` of the
children (and comparison) alone. -/
theorem sortChildren_spec (lc : String → String → Ordering)
    (hTrans : ∀ x y z, lc x y ≠ .gt → lc y z ≠ .gt → lc x z ≠ .gt)
    (hTot : ∀ x y, lc x y = .gt → lc y x ≠ .gt)
    (cs : List FileExplorer) :
    (sortChildren lc cs).Perm cs
    ∧ (sortChildren lc cs).Pairwise (fun a b =>
        ¬(a.ftype = .file ∧ b.ftype = .directory)
        ∧ (a.ftype = b.ftype → lc a.name b.name ≠ .gt)) := by
  constructor
  · exact List.perm_insertionSort _ cs
  · letI : IsTotal FileExplorer (fun a b => childLe lc a b = true) :=
      ⟨childLe_total lc hTot⟩
    letI : IsTrans FileExplorer (fun a b => childLe lc a b = true) :=
      ⟨childLe_trans lc hTrans⟩
    have hs := List.sorted_insertionSort (fun a b => childLe lc a b = true) cs
    exact hs.imp (childLe_imp_ordered lc _ _)

/-- Witness for C7 at the constant comparison and a two-element child
list (a file `b` listed before a directory `a`). -/
theorem sortChildren_spec_witness :
    (sortChildren (fun _ _ => Ordering.eq)
        [ FileExplorer.node "b" .file none (some "t") none
        , FileExplorer.node "a" .directory (some []) none none ]).Perm
      [ FileExplorer.node "b" .file none (some "t") none
      , FileExplorer.node "a" .directory (some []) none none ] :=
  (sortChildren_spec (fun _ _ => Ordering.eq)
    (fun _ _ _ h _ => h) (fun _ _ h => Ordering.noConfusion h) _).1

/-- Predicate `containsSub` decides substring occurrence: `p` occurs in `s` iff
`s` splits as `u ++ p ++ v`. -/
theorem containsSub_iff (p s : List Char) :
    containsSub p s = true ↔ ∃ u v, s = u ++ p ++ v := by
  induction s with
  | nil =>
    simp only [containsSub, List.isEmpty_iff]
    constructor
    · rintro rfl
      exact ⟨[], [], rfl⟩
    · rintro ⟨u, v, huv⟩
      rcases List.append_eq_nil.mp huv.symm with ⟨h1, -⟩
      exact (List.append_eq_nil.mp h1).2
  | cons c t ih =>
    simp only [containsSub, Bool.or_eq_true, ih]
    constructor
    · rintro (hpre | ⟨u, v, rfl⟩)
      · rcases List.isPrefixOf_iff_prefix.mp hpre with ⟨v, hv⟩
        exact ⟨[], v, by simp [hv]⟩
      · exact ⟨c :: u, v, by simp⟩
    · rintro ⟨u, v, huv⟩
      cases u with
      | nil =>
        left
        rw [List.isPrefixOf_iff_prefix]
        simp only [List.nil_append] at huv
        exact ⟨v, huv.symm⟩
      | cons c2 u2 =>
        right
        injection huv with h1 h2
        exact ⟨u2, v, h2⟩

/-- Every match number produced from start index `i` is at least `i`. -/
theorem matchLinesFrom_lb (q : String) :
    ∀ (ls : List String) (i : Nat), ∀ n ∈ matchLinesFrom q i ls, i ≤ n := by
  intro ls
  induction ls with
  | nil => intro i n h; simp [matchLinesFrom] at h
  | cons l t ih =>
    intro i n h
    rw [matchLinesFrom] at h
    by_cases hm : lineHasMatch l q
    · rw [if_pos hm] at h
      rcases List.mem_cons.mp h with rfl | h2
      · exact le_refl n
      · exact Nat.le_of_succ_le (ih (i + 1) n h2)
    · rw [if_neg hm] at h
      exact Nat.le_of_succ_le (ih (i + 1) n h)

/-- The match numbers are produced in strictly ascending order. -/
theorem matchLinesFrom_sorted (q : String) :
    ∀ (ls : List String) (i : Nat), (matchLinesFrom q i ls).Sorted (· < ·) := by
  intro ls
  induction ls with
  | nil => intro i; simp [matchLinesFrom]
  | cons l t ih =>
    intro i
    rw [matchLinesFrom]
    by_cases hm : lineHasMatch l q
    · rw [if_pos hm, List.sorted_cons]
      exact ⟨fun n hn => Nat.lt_of_succ_le (matchLinesFrom_lb q t (i + 1) n hn),
        ih (i + 1)⟩
    · rw [if_neg hm]
      exact ih (i + 1)

/-- Characterisation of membership: `n` is produced from start index `i`
iff `i ≤ n` and the line at offset `n - i` matches. -/
theorem mem_matchLinesFrom (q : String) :
    ∀ (ls : List String) (i n : Nat),
      n ∈ matchLinesFrom q i ls ↔
        i ≤ n ∧ ∃ l, ls.get? (n - i) = some l ∧ lineHasMatch l q = true := by
  intro ls
  induction ls with
  | nil => intro i n; simp [matchLinesFrom]
  | cons l t ih =>
    intro i n
    rw [matchLinesFrom]
    by_cases hm : lineHasMatch l q
    · rw [if_pos hm, List.mem_cons, ih (i + 1) n]
      constructor
      · rintro (rfl | ⟨hin, l2, hl2, hml2⟩)
        · exact ⟨le_refl n, l, by simp, hm⟩
        · refine ⟨by omega, l2, ?_, hml2⟩
          have hni : n - i = (n - (i + 1)) + 1 := by omega
          rw [hni]
          simpa using hl2
      · rintro ⟨hin, l2, hl2, hml2⟩
        rcases Nat.eq_or_lt_of_le hin with rfl | hlt
        · exact Or.inl rfl
        · refine Or.inr ⟨hlt, l2, ?_, hml2⟩
          have hni : n - i = (n - (i + 1)) + 1 := by omega
          rw [hni] at hl2
          simpa using hl2
    · rw [if_neg hm, ih (i + 1) n]
      constructor
      · rintro ⟨hin, l2, hl2, hml2⟩
        refine ⟨by omega, l2, ?_, hml2⟩
        have hni : n - i = (n - (i + 1)) + 1 := by omega
        rw [hni]
        simpa using hl2
      · rintro ⟨hin, l2, hl2, hml2⟩
        rcases Nat.eq_or_lt_of_le hin with rfl | hlt
        · rw [Nat.sub_self] at hl2
          simp only [List.get?_cons_zero, Option.some.injEq] at hl2
          subst hl2
          exact absurd hml2 (by simpa using hm)
        · refine ⟨hlt, l2, ?_, hml2⟩
          have hni : n - i = (n - (i + 1)) + 1 := by omega
          rw [hni] at hl2
          simpa using hl2

/-- C8 (modelled from the spec, the search handler being outside the
available sources): `setQuery(buffer, query)` computes `searchResults`
as the ascending sequence of exactly the 1-based numbers of the lines of
the buffer containing a case-insensitive substring occurrence of the
query; a non-empty query with matches sets the cursor to `0`, while an
empty query or zero matches yields `[]` and cursor `-1`. -/
theorem setQuery_spec (buffer query : String) (n : Nat) :
    (setQuery buffer query).searchResults.Sorted (· < ·)
    ∧ (setQuery buffer query).searchQuery = query
    ∧ (n ∈ (setQuery buffer query).searchResults ↔
        query ≠ "" ∧ 1 ≤ n ∧
          ∃ l, (bufferLines buffer).get? (n - 1) = some l ∧
            ∃ u v, lowerChars l.toList = u ++ lowerChars query.toList ++ v)
    ∧ (query = "" ∨ (setQuery buffer query).searchResults = [] →
        (setQuery buffer query).searchResults = []
        ∧ (setQuery buffer query).currentResultIndex = -1)
    ∧ (query ≠ "" → (setQuery buffer query).searchResults ≠ [] →
        (setQuery buffer query).currentResultIndex = 0) := by
  by_cases hq : query = ""
  · simp [setQuery, hq]
  · have hres : (setQuery buffer query).searchResults
        = matchLinesFrom query 1 (bufferLines buffer) := by
      simp [setQuery, hq]
    refine ⟨?_, ?_, ?_, ?_, ?_⟩
    · rw [hres]
      exact matchLinesFrom_sorted query (bufferLines buffer) 1
    · simp [setQuery, hq]
    · rw [hres, mem_matchLinesFrom query (bufferLines buffer) 1 n]
      simp only [lineHasMatch, containsSub_iff, hq, ne_eq, not_false_iff, true_and]
    · rintro (h | h)
      · exact absurd h hq
      · rw [hres] at h
        refine ⟨hres.trans h, ?_⟩
        simp [setQuery, hq, List.isEmpty_iff, h]
    · intro _ hne
      rw [hres] at hne
      simp [setQuery, hq, List.isEmpty_iff, hne]

/-- Witness for C8: on the buffer `"x\nFoo\nfoo"` with query `"foo"`,
line 2 is reported as a match and the cursor starts at `0`. -/
theorem setQuery_spec_witness :
    2 ∈ (setQuery "x\nFoo\nfoo" "foo").searchResults
    ∧ (setQuery "x\nFoo\nfoo" "foo").currentResultIndex = 0 :=
  ⟨(setQuery_spec "x\nFoo\nfoo" "foo" 2).2.2.1.mpr
      (by exact ⟨by decide, by decide, "Foo", by decide, [], [], by decide⟩),
   (setQuery_spec "x\nFoo\nfoo" "foo" 2).2.2.2.2 (by decide) (by decide)⟩
